import Mathlib

/-!
Shallow embedding of the incremental vector-indexing pipeline of
`applenotes_organization` (file `tools/vector_search.py`, with the note-source
helpers from `tools/note_operations.py`).

Modelling conventions:
* Python `float` timestamps are modelled as `ℚ`.
* A value read from an untyped store row is a `PyVal`: either `None`/missing
  (`vNone` — `dict.get` returns `None` both for a missing key and a stored
  `None`), a numeric value (`vNum q` — any value on which Python's
  `float()`/`int()` conversion succeeds), or a value on which the conversion
  raises `TypeError`/`ValueError` (`vBad`).  An empty string is falsy in
  Python, so `x or 0.0` turns it into `0.0`; it is therefore modelled as
  `vNum 0`.
* Python exceptions are modelled with `Except Unit`.
* The external AppleScript note source is a `Source` record of oracles: each
  oracle gives the outcome of the corresponding script invocation
  (`.error ()` = the script raised).
* The external LanceDB store's failure behaviour is a `StoreEnv` of oracles
  (whether `table.delete` / `table.add` raises for a given `note_id` filter),
  and its vector ranking is a `SearchEnv` (distance of each row to a query).
* `datetime.now(timezone.utc).timestamp()` is modelled by a clock stream
  `clk : ℕ → ℚ` giving the wall-clock time observed at the i-th note of a
  batch loop, or a single `now : ℚ` parameter for a single upsert.
-/

namespace AppleNotes

/-- Constant `INDEX_VERSION = 1` from `vector_search.py`. -/
def INDEX_VERSION : ℤ := 1

/-- A dynamically-typed value read back from a store row (see module header). -/
inductive PyVal where
  | vNone : PyVal
  | vNum (q : ℚ) : PyVal
  | vBad : PyVal
deriving DecidableEq, Repr

/-- Python `float(x or 0.0)`: `none` models the conversion raising. -/
def pyFloatOrZero : PyVal → Option ℚ
  | .vNone => some 0
  | .vNum q => some q
  | .vBad => none

/-- Truncation of a rational toward zero, as Python `int()` does on floats. -/
def ratTrunc (q : ℚ) : ℤ := Int.tdiv q.num (q.den : ℤ)

/-- Python `int(x or 0)`: `none` models the conversion raising. -/
def pyIntOrZero : PyVal → Option ℤ
  | .vNone => some 0
  | .vNum q => some (ratTrunc q)
  | .vBad => none

/-- A stored row of the `notes` table.  Fields that `vector_search.py` reads
back defensively through `row.get(...)` are `Option`/`PyVal`-typed; the fields
it never reads back are kept at their natural type. -/
structure Row where
  note_id : Option String
  name : Option String
  folder : Option String
  content : String
  created_ts : ℚ
  modified_ts : ℚ
  indexed_at : PyVal
  index_version : PyVal
deriving DecidableEq, Repr

/-- The persistent LanceDB database directory: whether the `notes` table
exists, whether its schema has the `index_version` column, and its rows. -/
structure DB where
  tableExists : Bool
  hasIndexVersionCol : Bool
  rows : List Row
deriving DecidableEq, Repr

/-- The table produced by `db.create_table(..., schema=NoteVector)`:
present, current schema, no rows. -/
def freshTable : DB := { tableExists := true, hasIndexVersionCol := true, rows := [] }

/-- Embeds `VectorSearch._get_table`: open the table; if its schema lacks the
`index_version` column, drop and recreate it; if opening fails (table
absent), create it. -/
def get_table (db : DB) : DB :=
  if db.tableExists then
    if db.hasIndexVersionCol then db else freshTable
  else freshTable

/-- The single-quote character used by the store's filter-expression syntax. -/
def squote : Char := Char.ofNat 39

/-- Embeds `VectorSearch._escape_filter_value`: Python `value.replace("'", "''")`,
char by char. -/
def escapeChars : List Char → List Char
  | [] => []
  | c :: rest =>
    if c = squote then squote :: squote :: escapeChars rest
    else c :: escapeChars rest

/-- String-level wrapper of `escapeChars` (the actual
`_escape_filter_value`). -/
def escape_filter_value (s : String) : String := ⟨escapeChars s.data⟩

/-- Store-side unescaping of a quoted literal body: each doubled quote
stands for one literal quote (the inverse of the required escaping rule). -/
def sqlUnescapeChars : List Char → List Char
  | [] => []
  | [c] => [c]
  | c :: c2 :: rest2 =>
    if c = squote ∧ c2 = squote then c :: sqlUnescapeChars rest2
    else c :: sqlUnescapeChars (c2 :: rest2)

/-- The fixed prefix `<field> = '` of an equality filter expression. -/
def eqFilterPrefixChars (field : List Char) : List Char :=
  field ++ [' ', '=', ' ', squote]

/-- Store-side parsing of a filter expression `<field> = '<body>'`: strip the
prefix and the closing quote, unescape the body.  Returns `none` when the
expression is not of that shape. -/
def parseEqFilterChars (field : List Char) (f : List Char) : Option (List Char) :=
  let pre := eqFilterPrefixChars field
  if pre.isPrefixOf f then
    let rest := f.drop pre.length
    match rest.getLast? with
    | some c => if c = squote then some (sqlUnescapeChars rest.dropLast) else none
    | none => none
  else none

/-- The filter string the Synchronizer builds: `<field> = '<escaped value>'`. -/
def mkEqFilter (field : String) (value : String) : String :=
  field ++ " = '" ++ escape_filter_value value ++ "'"

/-- Decoding of one raw row by `VectorSearch._get_index_map`'s loop body:
skip the row when `note_id` is missing or empty (falsy); otherwise convert
`indexed_at`/`index_version` with the `or`-defaults, and fall back to
`(0.0, 0)` when either conversion raises. -/
def decode_row (row : Row) : Option (String × (ℚ × ℤ)) :=
  match row.note_id with
  | none => none
  | some nid =>
    if nid = "" then none
    else
      match pyFloatOrZero row.indexed_at, pyIntOrZero row.index_version with
      | some ts, some v => some (nid, (ts, v))
      | _, _ => some (nid, (0, 0))

/-- Embeds `VectorSearch._get_index_map`: optionally restrict to one folder (the
Python truthiness test makes an empty folder name behave like no filter),
then decode each row in order.  The resulting association list models the
Python dict: later entries overwrite earlier ones (see `mapGet`). -/
def get_index_map (rows : List Row) (folderName : Option String) :
    List (String × (ℚ × ℤ)) :=
  let rows' := match folderName with
    | some f => if f = "" then rows else rows.filter (fun r => r.folder == some f)
    | none => rows
  rows'.filterMap decode_row

/-- Dict lookup over an insertion-ordered association list: the latest
binding of a key wins, as for Python dict assignment. -/
def mapGet {α : Type} : List (String × α) → String → Option α
  | [], _ => none
  | (k', v) :: rest, k =>
    match mapGet rest k with
    | some r => some r
    | none => if k' = k then some v else none

/-- The freshness policy of `index_folder`/`reindex_updated_notes`:
`needs_reindex = indexed_info is None or indexed_info[1] < INDEX_VERSION
or modified_ts > indexed_info[0]`. -/
def needs_reindex (indexedInfo : Option (ℚ × ℤ)) (modified_ts : ℚ) : Bool :=
  match indexedInfo with
  | none => true
  | some (indexed_at, index_version) =>
    decide (index_version < INDEX_VERSION) || decide (modified_ts > indexed_at)

/-- Structure `NoteDetails` from `note_operations.py`: the record assembled by
`get_note_details` for vector indexing. -/
structure NoteDetails where
  note_id : String
  name : String
  folder : String
  body : String
  created_ts : ℚ
  modified_ts : ℚ
deriving DecidableEq, Repr

/-- The external AppleScript note source, as oracles giving the outcome of
each script invocation (`.error ()` = the script raised, e.g. timeout or
vanished note).  `modOutput`/`createdOutput` additionally record whether the
textual output parses as a number (`some q`) or not (`none`). -/
structure Source where
  notesInFolder : String → List String
  allNotes : List String
  idOutput : String → Except Unit String
  modOutput : String → Except Unit (Option ℚ)
  createdOutput : String → Except Unit (Option ℚ)
  bodyOutput : String → Except Unit String
  containerOutput : String → Except Unit String

/-- Embeds `NoteOperations.get_note_id`: returns the script output verbatim;
script failures propagate. -/
def get_note_id (src : Source) (noteName : String) : Except Unit String :=
  src.idOutput noteName

/-- Embeds `NoteOperations.get_note_modification_timestamp`: script failures
propagate, but an output that does not parse as a number yields `0.0`
(the `try/except` around `float(output)`). -/
def get_note_modification_timestamp (src : Source) (noteName : String) :
    Except Unit ℚ :=
  match src.modOutput noteName with
  | .error e => .error e
  | .ok (some q) => .ok q
  | .ok none => .ok 0

/-- Embeds `NoteOperations.get_note_creation_timestamp`: same shape as the
modification timestamp. -/
def get_note_creation_timestamp (src : Source) (noteName : String) :
    Except Unit ℚ :=
  match src.createdOutput noteName with
  | .error e => .error e
  | .ok (some q) => .ok q
  | .ok none => .ok 0

/-- Embeds `NoteOperations.read_note`. -/
def read_note (src : Source) (noteName : String) : Except Unit String :=
  src.bodyOutput noteName

/-- The container used by `get_note_details`: the provided folder name when
it is truthy (non-empty), otherwise the result of querying the note's
container. -/
def details_container (src : Source) (noteName : String)
    (folderName : Option String) : Except Unit String :=
  match folderName with
  | some f => if f = "" then src.containerOutput noteName else .ok f
  | none => src.containerOutput noteName

/-- Embeds `NoteOperations.get_note_details`: resolve the container, then assemble
the record from the individual fetches, in source order.  Any fetch failure
propagates (monadic bind written out as explicit matches). -/
def get_note_details (src : Source) (noteName : String)
    (folderName : Option String) : Except Unit NoteDetails :=
  match details_container src noteName folderName with
  | .error e => .error e
  | .ok container =>
    match get_note_id src noteName with
    | .error e => .error e
    | .ok nid =>
      match read_note src noteName with
      | .error e => .error e
      | .ok body =>
        match get_note_creation_timestamp src noteName with
        | .error e => .error e
        | .ok cts =>
          match get_note_modification_timestamp src noteName with
          | .error e => .error e
          | .ok mts =>
            .ok { note_id := nid, name := noteName, folder := container,
                  body := body, created_ts := cts, modified_ts := mts }

/-- Failure oracles for the external store's mutation operations, keyed by
the `note_id` being upserted: whether `table.delete(...)` raises, and
whether `table.add(...)` raises, during the upsert for that id. -/
structure StoreEnv where
  deleteFails : String → Bool
  addFails : String → Bool

/-- Store-side semantics of `table.delete("note_id = '...'")`: remove every
row whose `note_id` equals the parsed filter value.  A filter that does not
parse matches nothing. -/
def table_delete (filter : String) (rows : List Row) : List Row :=
  match parseEqFilterChars "note_id".data filter.data with
  | some v => rows.filter (fun r => !(r.note_id == some (String.mk v)))
  | none => rows

/-- The row inserted by `VectorSearch._upsert_note` for details `d` at
wall-clock time `now`. -/
def upserted_row (now : ℚ) (d : NoteDetails) : Row where
  note_id := some d.note_id
  name := some d.name
  folder := some d.folder
  content := (d.name ++ "\n\n" ++ d.body).trim
  created_ts := d.created_ts
  modified_ts := d.modified_ts
  indexed_at := .vNum now
  index_version := .vNum INDEX_VERSION

/-- Embeds `VectorSearch._upsert_note`: delete any existing row with the same
`note_id` (a delete failure is swallowed), then add the new row.  The `Bool`
records whether the add succeeded, i.e. whether `_upsert_note` returned
normally rather than raising out of `table.add`. -/
def upsert_note (senv : StoreEnv) (now : ℚ) (rows : List Row)
    (d : NoteDetails) : List Row × Bool :=
  let t1 :=
    if senv.deleteFails d.note_id then rows
    else table_delete (mkEqFilter "note_id" d.note_id) rows
  if senv.addFails d.note_id then (t1, false)
  else (t1 ++ [upserted_row now d], true)

/-- The shared per-note body of the loops in `index_folder` and
`reindex_updated_notes`: fetch the id and modification timestamp, apply the
freshness policy against the (fixed) index map, and upsert when stale.  Any
failure is caught by the surrounding `try/except`: the note is skipped and
the table left as it was.  The `Bool` records whether the note was counted
(`indexed += 1`). -/
def process_note (src : Source) (senv : StoreEnv) (now : ℚ)
    (indexMap : List (String × (ℚ × ℤ))) (folderName : Option String)
    (rows : List Row) (noteName : String) : List Row × Bool :=
  match get_note_id src noteName with
  | .error _ => (rows, false)
  | .ok nid =>
    match get_note_modification_timestamp src noteName with
    | .error _ => (rows, false)
    | .ok mts =>
      if needs_reindex (mapGet indexMap nid) mts then
        match get_note_details src noteName folderName with
        | .error _ => (rows, false)
        | .ok d => upsert_note senv now rows d
      else (rows, false)

/-- The sequential indexing loop: notes are processed in order, position `i`
feeding the wall clock `clk`, the success count accumulating in `acc`. -/
def index_loop (src : Source) (senv : StoreEnv) (clk : ℕ → ℚ)
    (indexMap : List (String × (ℚ × ℤ))) (folderName : Option String) :
    List String → ℕ → List Row → ℕ → List Row × ℕ
  | [], _, rows, acc => (rows, acc)
  | n :: rest, i, rows, acc =>
    let step := process_note src senv (clk i) indexMap folderName rows n
    index_loop src senv clk indexMap folderName rest (i + 1) step.1
      (acc + (if step.2 then 1 else 0))

/-- Embeds `VectorSearch.index_folder`: enumerate the folder's notes; when empty,
return 0 without touching the store; otherwise open/migrate the table, build
the folder-scoped index map once, and run the loop.  Returns the count of
notes actually upserted together with the resulting store state. -/
def index_folder (src : Source) (senv : StoreEnv) (clk : ℕ → ℚ) (db : DB)
    (folderName : String) : ℕ × DB :=
  let notes := src.notesInFolder folderName
  if notes = [] then (0, db)
  else
    let db1 := get_table db
    let indexMap := get_index_map db1.rows (some folderName)
    let res := index_loop src senv clk indexMap (some folderName) notes 0 db1.rows 0
    (res.2, { db1 with rows := res.1 })

/-- The candidate notes of `reindex_updated_notes`: one folder's notes, or
every note when no folder is given (an empty folder name is falsy in Python
and behaves like no folder). -/
def reindex_candidates (src : Source) (folderName : Option String) : List String :=
  match folderName with
  | some f => if f = "" then src.allNotes else src.notesInFolder f
  | none => src.allNotes

/-- Embeds `VectorSearch.reindex_updated_notes`: open/migrate the table first, build
the (optionally folder-scoped) index map, enumerate the candidates, and run
the same loop. -/
def reindex_updated_notes (src : Source) (senv : StoreEnv) (clk : ℕ → ℚ)
    (db : DB) (folderName : Option String) : ℕ × DB :=
  let db1 := get_table db
  let indexMap := get_index_map db1.rows folderName
  let notes := reindex_candidates src folderName
  let res := index_loop src senv clk indexMap folderName notes 0 db1.rows 0
  (res.2, { db1 with rows := res.1 })

/-- Whether one note contributes 1 to the returned count of a batch call:
its id and modification-timestamp fetches succeed, the freshness policy
judges it stale, its details fetch succeeds, and the store add succeeds.
This predicate does not depend on the evolving table, because the index map
is computed once before the loop. -/
def note_contributes (src : Source) (senv : StoreEnv)
    (indexMap : List (String × (ℚ × ℤ))) (folderName : Option String)
    (noteName : String) : Bool :=
  match get_note_id src noteName with
  | .error _ => false
  | .ok nid =>
    match get_note_modification_timestamp src noteName with
    | .error _ => false
    | .ok mts =>
      if needs_reindex (mapGet indexMap nid) mts then
        match get_note_details src noteName folderName with
        | .error _ => false
        | .ok d => !senv.addFails d.note_id
      else false

/-- Structure `VectorSearchResult` from `vector_search.py`: exactly the four fields a
search hit is reduced to. -/
structure VectorSearchResult where
  name : String
  folder : String
  note_id : String
  distance : ℚ
deriving DecidableEq, Repr

/-- The store's search-time behaviour: the distance of each row's vector to
a query's embedding (which fixes the nearest-neighbour ranking), and a quirk
oracle for hits whose `_distance` key is absent from the returned dict. -/
structure SearchEnv where
  distance : String → Row → ℚ
  omitsDistance : Row → Bool

/-- Insert a row into a list kept sorted by ascending distance key. -/
def insertRanked (key : Row → ℚ) (r : Row) : List Row → List Row
  | [] => [r]
  | x :: xs => if key r ≤ key x then r :: x :: xs else x :: insertRanked key r xs

/-- The store's nearest-neighbour ranking: rows ordered by ascending
distance to the query. -/
def rank_rows (env : SearchEnv) (query : String) (rows : List Row) : List Row :=
  rows.foldr (insertRanked (env.distance query)) []

/-- Whether a row satisfies a `folder = '...'` filter expression, per the
store's filter semantics (`NULL` never compares equal). -/
def row_passes_folder_filter (filter : String) (r : Row) : Bool :=
  match parseEqFilterChars "folder".data filter.data with
  | some v => r.folder == some (String.mk v)
  | none => false

/-- Store-side semantics of `table.search(query).where(f).limit(n).to_list()`:
filter, rank by distance, truncate, and report each hit with its optional
`_distance` value. -/
def store_search (env : SearchEnv) (rows : List Row) (query : String)
    (filter : Option String) (limit : ℕ) : List (Row × Option ℚ) :=
  let candidates :=
    match filter with
    | some f => rows.filter (row_passes_folder_filter f)
    | none => rows
  ((rank_rows env query candidates).take limit).map
    (fun r => (r, if env.omitsDistance r then none else some (env.distance query r)))

/-- The `where` clause `search` builds: none when no folder is given or the
folder name is falsy (empty). -/
def search_filter (folderName : Option String) : Option String :=
  match folderName with
  | some f => if f = "" then none else some (mkEqFilter "folder" f)
  | none => none

/-- Embeds `VectorSearch.search`: open/migrate the table, optionally add the
folder filter, collect at most `limit` hits in store order, and project each
hit onto `{name, folder, note_id, distance}` with the documented defaults. -/
def search (env : SearchEnv) (db : DB) (query : String) (limit : ℕ)
    (folderName : Option String) : List VectorSearchResult × DB :=
  let db1 := get_table db
  let hits := store_search env db1.rows query (search_filter folderName) limit
  (hits.map (fun h =>
    { name := h.1.name.getD "", folder := h.1.folder.getD "",
      note_id := h.1.note_id.getD "", distance := h.2.getD 0 }), db1)

/-- The folder restriction `_get_index_map` applies to a row, as a predicate:
no restriction when no folder is given or the folder name is falsy. -/
def folder_pass (folderName : Option String) (r : Row) : Bool :=
  match folderName with
  | some f => if f = "" then true else r.folder == some f
  | none => true

/-- A key of the index map holding a row written by the current run: stamped
with some observed clock value and the current `INDEX_VERSION`. -/
def FreshKey (clk : ℕ → ℚ) (m : List (String × (ℚ × ℤ))) (k : String) : Prop :=
  ∃ j, mapGet m k = some (clk j, INDEX_VERSION)

/-- Per-note sanity of a batch run over folder `F`: every fetch succeeds, the
id is non-empty, the add never fails, and the note is judged stale against
the loop's (fixed) index map. -/
def GoodNote (src : Source) (senv : StoreEnv)
    (indexMap : List (String × (ℚ × ℤ))) (F : String) (n : String) : Prop :=
  ∃ nid, get_note_id src n = .ok nid ∧ nid ≠ "" ∧ senv.addFails nid = false ∧
    (∃ mts, get_note_modification_timestamp src n = .ok mts ∧
      needs_reindex (mapGet indexMap nid) mts = true) ∧
    (∃ d, get_note_details src n (some F) = .ok d)

/-- The rows of a table carrying a given `note_id` (for stating the upsert
uniqueness property). -/
def rows_with_id (rows : List Row) (nid : String) : List Row :=
  rows.filter (fun r => r.note_id == some nid)

/-! ### Concrete test fixtures (used by scenario theorems and witnesses) -/

/-- A store environment in which no store mutation ever fails. -/
def senvOk : StoreEnv where
  deleteFails := fun _ => false
  addFails := fun _ => false

/-- A store environment whose delete step always raises (the failure is
swallowed by `_upsert_note`). -/
def senvDeleteFails : StoreEnv where
  deleteFails := fun _ => true
  addFails := fun _ => false

/-- A database whose table does not exist yet. -/
def dbEmpty : DB where
  tableExists := false
  hasIndexVersionCol := false
  rows := []

/-- A source with three notes in folder `F` where fetching the body (hence
the details) of the second note raises; every other fetch succeeds. -/
def srcThreeNotes : Source where
  notesInFolder := fun f => if f = "F" then ["n1", "n2", "n3"] else []
  allNotes := ["n1", "n2", "n3"]
  idOutput := fun n => .ok ("id-" ++ n)
  modOutput := fun _ => .ok (some 5)
  createdOutput := fun _ => .ok (some 1)
  bodyOutput := fun n => if n = "n2" then .error () else .ok ("body " ++ n)
  containerOutput := fun _ => .ok "F"

/-- A source with a single note in folder `F`; all fetches succeed. -/
def srcOneNote : Source where
  notesInFolder := fun f => if f = "F" then ["n1"] else []
  allNotes := ["n1"]
  idOutput := fun _ => .ok "a"
  modOutput := fun _ => .ok (some 5)
  createdOutput := fun _ => .ok (some 1)
  bodyOutput := fun _ => .ok "b"
  containerOutput := fun _ => .ok "F"

/-- A source whose modification-timestamp script output does not parse as a
number. -/
def srcUnparsable : Source where
  notesInFolder := fun f => if f = "F" then ["n1"] else []
  allNotes := ["n1"]
  idOutput := fun _ => .ok "a"
  modOutput := fun _ => .ok none
  createdOutput := fun _ => .ok (some 1)
  bodyOutput := fun _ => .ok "b"
  containerOutput := fun _ => .ok "F"

/-- A stored row with a missing `indexed_at` but a valid `index_version`. -/
def rowHalfDecoded : Row where
  note_id := some "a"
  name := none
  folder := none
  content := ""
  created_ts := 0
  modified_ts := 0
  indexed_at := .vNone
  index_version := .vNum 5

/-- A stored row with a missing `note_id`. -/
def rowNoId : Row where
  note_id := none
  name := some "x"
  folder := some "F"
  content := ""
  created_ts := 0
  modified_ts := 0
  indexed_at := .vNum 3
  index_version := .vNum 1

/-- A stored row whose `indexed_at` raises on numeric conversion. -/
def rowBadTs : Row where
  note_id := some "b"
  name := some "x"
  folder := some "F"
  content := ""
  created_ts := 0
  modified_ts := 0
  indexed_at := .vBad
  index_version := .vNum 1

/-- A stored row with `note_id = "a"` (a prior version of a note). -/
def rowA : Row where
  note_id := some "a"
  name := some "old"
  folder := some "F"
  content := "old"
  created_ts := 0
  modified_ts := 0
  indexed_at := .vNum 1
  index_version := .vNum 1

/-- Details of note id `a`, as a fully-resolved upsert input. -/
def detailsA : NoteDetails where
  note_id := "a"
  name := "new name"
  folder := "F"
  body := "new body"
  created_ts := 1
  modified_ts := 2

/-- A search environment with a constant distance and no reporting quirk. -/
def envConst : SearchEnv where
  distance := fun _ _ => 0
  omitsDistance := fun _ => false

/-- A current-schema store holding one row whose folder is `B`. -/
def dbLeak : DB where
  tableExists := true
  hasIndexVersionCol := true
  rows := [{ note_id := some "idB", name := some "nB", folder := some "B", content := "", created_ts := 0, modified_ts := 0, indexed_at := .vNum 1, index_version := .vNum 1 }]

/-- A current-schema store holding one row whose folder name contains a
single quote. -/
def dbQuote : DB where
  tableExists := true
  hasIndexVersionCol := true
  rows := [{ note_id := some "x", name := some "nQ", folder := some "a'b", content := "", created_ts := 0, modified_ts := 0, indexed_at := .vNum 1, index_version := .vNum 1 }]

/-! ### Helper lemmas about the filter-expression escaping round-trip -/

theorem escapeChars_eq_nil {l : List Char} (h : escapeChars l = []) : l = [] := by
  cases l with
  | nil => rfl
  | cons c rest =>
    exfalso
    by_cases hc : c = squote <;> simp [escapeChars, hc] at h

theorem sqlUnescape_escape (l : List Char) : sqlUnescapeChars (escapeChars l) = l := by
  induction l with
  | nil => rfl
  | cons c rest ih =>
    by_cases hc : c = squote
    · subst hc
      have he : escapeChars (squote :: rest) = squote :: squote :: escapeChars rest := by
        simp [escapeChars]
      rw [he]
      cases hes : escapeChars rest with
      | nil =>
        have hr : rest = [] := escapeChars_eq_nil hes
        subst hr
        rfl
      | cons c2 rest2 =>
        have hstep : sqlUnescapeChars (squote :: squote :: c2 :: rest2)
            = squote :: sqlUnescapeChars (c2 :: rest2) := by
          simp [sqlUnescapeChars]
        rw [hstep, ← hes, ih]
    · have he : escapeChars (c :: rest) = c :: escapeChars rest := by
        simp [escapeChars, hc]
      rw [he]
      cases hes : escapeChars rest with
      | nil =>
        have hr : rest = [] := escapeChars_eq_nil hes
        subst hr
        rfl
      | cons c2 rest2 =>
        have hstep : sqlUnescapeChars (c :: c2 :: rest2)
            = c :: sqlUnescapeChars (c2 :: rest2) := by
          simp [sqlUnescapeChars, hc]
        rw [hstep, ← hes, ih]

theorem isPrefixOf_append_self (l r : List Char) : l.isPrefixOf (l ++ r) = true := by
  induction l with
  | nil => simp [List.isPrefixOf]
  | cons c cs ih => simp [List.isPrefixOf, ih]

theorem string_mk_data (s : String) : String.mk s.data = s := rfl

theorem mkEqFilter_data (field v : String) :
    (mkEqFilter field v).data
      = eqFilterPrefixChars field.data ++ (escapeChars v.data ++ [squote]) := by
  have h1 : " = '".data = [' ', '=', ' ', squote] := by decide
  have h2 : "'".data = [squote] := by decide
  simp [mkEqFilter, escape_filter_value, eqFilterPrefixChars, String.data_append, h1, h2]
  decide

theorem parseEq_mkEqFilter (field v : String) :
    parseEqFilterChars field.data (mkEqFilter field v).data = some v.data := by
  rw [mkEqFilter_data]
  simp only [parseEqFilterChars, isPrefixOf_append_self, if_true, List.drop_left,
    List.getLast?_concat, List.dropLast_concat, sqlUnescape_escape]

/-! ### Helper lemmas about `mapGet` (the Python dict model) -/

theorem mapGet_cons_ne {α : Type} (k' : String) (v : α) (m : List (String × α))
    (k : String) (h : k' ≠ k) : mapGet ((k', v) :: m) k = mapGet m k := by
  cases hm : mapGet m k with
  | some r => simp [mapGet, hm]
  | none => simp [mapGet, hm, h]

theorem mapGet_append_of_some {α : Type} (l l' : List (String × α)) (k : String)
    (v : α) (h : mapGet l' k = some v) : mapGet (l ++ l') k = some v := by
  induction l with
  | nil => simpa using h
  | cons p rest ih => simp [mapGet, ih]

theorem mapGet_append_of_none {α : Type} (l l' : List (String × α)) (k : String)
    (h : mapGet l' k = none) : mapGet (l ++ l') k = mapGet l k := by
  induction l with
  | nil => simpa using h
  | cons p rest ih =>
    cases p with
    | mk k' v =>
      simp only [List.cons_append, mapGet, List.append_eq]
      rw [ih]

theorem mapGet_append_left_irrelevant {α : Type} (l l' : List (String × α))
    (k : String) (h : ∀ p ∈ l, p.1 ≠ k) : mapGet (l ++ l') k = mapGet l' k := by
  induction l with
  | nil => rfl
  | cons p rest ih =>
    cases p with
    | mk k' v =>
      have hk' : k' ≠ k := h (k', v) (by simp)
      have ih' : mapGet (rest ++ l') k = mapGet l' k := by
        apply ih
        intro p hp
        exact h p (by simp [hp])
      rw [List.cons_append, mapGet_cons_ne k' v (rest ++ l') k hk', ih']

theorem mapGet_append_congr_right {α : Type} (a b b' : List (String × α))
    (k : String) (h : mapGet b k = mapGet b' k) :
    mapGet (a ++ b) k = mapGet (a ++ b') k := by
  induction a with
  | nil => simpa using h
  | cons p rest ih =>
    cases p with
    | mk k' v =>
      simp only [List.cons_append, mapGet, List.append_eq]
      rw [ih]

/-! ### Helper lemmas about `get_index_map` -/

theorem get_index_map_eq_filterMap (rows : List Row) (folderName : Option String) :
    get_index_map rows folderName
      = rows.filterMap (fun r => if folder_pass folderName r then decode_row r else none) := by
  cases folderName with
  | none => simp [get_index_map, folder_pass]
  | some f =>
    by_cases hf : f = "" <;>
      simp [get_index_map, folder_pass, hf, List.filterMap_filter]

theorem get_index_map_append (t t' : List Row) (folderName : Option String) :
    get_index_map (t ++ t') folderName
      = get_index_map t folderName ++ get_index_map t' folderName := by
  simp [get_index_map_eq_filterMap, List.filterMap_append]

theorem decode_row_key {r : Row} {k : String} {val : ℚ × ℤ}
    (h : decode_row r = some (k, val)) : r.note_id = some k ∧ k ≠ "" := by
  cases hn : r.note_id with
  | none => simp [decode_row, hn] at h
  | some nid =>
    simp only [decode_row, hn] at h
    by_cases hnid : nid = ""
    · simp [hnid] at h
    · rw [if_neg hnid] at h
      have hk : nid = k := by
        cases hf : pyFloatOrZero r.indexed_at <;> cases hv : pyIntOrZero r.index_version <;>
          rw [hf, hv] at h <;> simp at h <;> exact h.1
      subst hk
      exact ⟨rfl, hnid⟩

theorem get_index_map_singleton_key {r : Row} {folderName : Option String}
    {p : String × (ℚ × ℤ)} (h : p ∈ get_index_map [r] folderName) :
    r.note_id = some p.1 := by
  rw [get_index_map_eq_filterMap] at h
  by_cases hp : folder_pass folderName r
  · simp [hp] at h
    cases hd : decode_row r with
    | none => rw [hd] at h; simp at h
    | some e =>
      rw [hd] at h
      simp at h
      subst h
      cases e with
      | mk k val => exact (decode_row_key hd).1
  · simp [hp] at h

/-- Removing the rows of one `note_id` never changes the index-map entry of a
different key. -/
theorem mapGet_gim_filter_ne (rows : List Row) (folderName : Option String)
    (nid k : String) (hk : k ≠ nid) :
    mapGet (get_index_map (rows.filter (fun r => !(r.note_id == some nid))) folderName) k
      = mapGet (get_index_map rows folderName) k := by
  induction rows with
  | nil => rfl
  | cons r rest ih =>
    have hsplit : r :: rest = [r] ++ rest := rfl
    by_cases hr : r.note_id == some nid
    · have hfilter : (r :: rest).filter (fun r => !(r.note_id == some nid))
          = rest.filter (fun r => !(r.note_id == some nid)) := by
        simp [List.filter, hr]
      rw [hfilter, ih, hsplit, get_index_map_append]
      symm
      apply mapGet_append_left_irrelevant
      intro p hp
      have hid := get_index_map_singleton_key hp
      have : r.note_id = some nid := by simpa using hr
      rw [this] at hid
      intro hpk
      rw [hpk] at hid
      exact hk (Option.some.inj hid).symm
    · have hfilter : (r :: rest).filter (fun r => !(r.note_id == some nid))
          = r :: rest.filter (fun r => !(r.note_id == some nid)) := by
        simp [List.filter, hr]
      rw [hfilter]
      have hsplit2 : r :: rest.filter (fun r => !(r.note_id == some nid))
          = [r] ++ rest.filter (fun r => !(r.note_id == some nid)) := rfl
      rw [hsplit2, hsplit, get_index_map_append, get_index_map_append]
      exact mapGet_append_congr_right _ _ _ _ ih

/-- Store-side effect of the delete step of `_upsert_note`: the built filter
parses back to the exact `note_id`, so exactly the rows with that id go. -/
theorem table_delete_mkEqFilter (nid : String) (rows : List Row) :
    table_delete (mkEqFilter "note_id" nid) rows
      = rows.filter (fun r => !(r.note_id == some nid)) := by
  unfold table_delete
  rw [parseEq_mkEqFilter]

/-! ### Helper lemmas about the upsert and the loops -/

theorem decode_upserted_row (now : ℚ) (d : NoteDetails) (h : d.note_id ≠ "") :
    decode_row (upserted_row now d) = some (d.note_id, (now, INDEX_VERSION)) := by
  simp [decode_row, upserted_row, h, pyFloatOrZero, pyIntOrZero]
  decide

theorem folder_pass_upserted (now : ℚ) (d : NoteDetails) (F : String)
    (hfold : F ≠ "" → d.folder = F) :
    folder_pass (some F) (upserted_row now d) = true := by
  by_cases hF : F = ""
  · simp [folder_pass, hF]
  · simp [folder_pass, upserted_row, hF, hfold hF]

/-- Effect of one successful upsert on the folder-scoped index map: the
upserted id now maps to `(now, INDEX_VERSION)` and every other key is
unchanged. -/
theorem mapGet_gim_upsert (senv : StoreEnv) (now : ℚ) (rows : List Row)
    (d : NoteDetails) (folderName : Option String) (k : String)
    (hadd : senv.addFails d.note_id = false) (hnid : d.note_id ≠ "")
    (hpass : folder_pass folderName (upserted_row now d) = true) :
    mapGet (get_index_map (upsert_note senv now rows d).1 folderName) k
      = if k = d.note_id then some (now, INDEX_VERSION)
        else mapGet (get_index_map rows folderName) k := by
  have hrows1 : (upsert_note senv now rows d).1
      = (if senv.deleteFails d.note_id then rows
         else rows.filter (fun r => !(r.note_id == some d.note_id)))
        ++ [upserted_row now d] := by
    by_cases hdel : senv.deleteFails d.note_id <;>
      simp [upsert_note, hadd, hdel, table_delete_mkEqFilter]
  rw [hrows1, get_index_map_append]
  have hsingle : get_index_map [upserted_row now d] folderName
      = [(d.note_id, (now, INDEX_VERSION))] := by
    simp [get_index_map_eq_filterMap, hpass, decode_upserted_row now d hnid]
  rw [hsingle]
  by_cases hk : k = d.note_id
  · subst hk
    rw [if_pos rfl]
    apply mapGet_append_of_some
    simp [mapGet]
  · rw [if_neg hk]
    rw [mapGet_append_of_none]
    · by_cases hdel : senv.deleteFails d.note_id
      · simp [hdel]
      · simp only [hdel, if_false]
        exact mapGet_gim_filter_ne rows folderName d.note_id k hk
    · have : d.note_id ≠ k := fun h => hk h.symm
      simp [mapGet, this]

theorem get_table_flags (db : DB) :
    (get_table db).tableExists = true ∧ (get_table db).hasIndexVersionCol = true := by
  by_cases h1 : db.tableExists <;> by_cases h2 : db.hasIndexVersionCol <;>
    simp [get_table, freshTable, h1, h2]

theorem get_table_of_flags {db : DB} (h1 : db.tableExists = true)
    (h2 : db.hasIndexVersionCol = true) : get_table db = db := by
  simp [get_table, h1, h2]

/-- The fields of a successfully fetched details record are pinned by the
individual source fetches: in particular its `note_id` is exactly the
`get_note_id` result, and its folder is the provided (truthy) folder name. -/
theorem get_note_details_fields {src : Source} {n : String}
    {folderName : Option String} {d : NoteDetails}
    (h : get_note_details src n folderName = .ok d) :
    get_note_id src n = .ok d.note_id ∧ d.name = n ∧
    (∀ F, folderName = some F → F ≠ "" → d.folder = F) := by
  unfold get_note_details at h
  cases hc : details_container src n folderName with
  | error e => rw [hc] at h; exact absurd h (by simp)
  | ok c =>
    rw [hc] at h
    cases hi : get_note_id src n with
    | error e => rw [hi] at h; exact absurd h (by simp)
    | ok nid =>
      rw [hi] at h
      cases hb : read_note src n with
      | error e => rw [hb] at h; exact absurd h (by simp)
      | ok body =>
        rw [hb] at h
        cases hcr : get_note_creation_timestamp src n with
        | error e => rw [hcr] at h; exact absurd h (by simp)
        | ok cts =>
          rw [hcr] at h
          cases hm : get_note_modification_timestamp src n with
          | error e => rw [hm] at h; exact absurd h (by simp)
          | ok mts =>
            rw [hm] at h
            have hd : d = { note_id := nid, name := n, folder := c, body := body, created_ts := cts, modified_ts := mts } := by
              cases h; rfl
            subst hd
            refine ⟨rfl, rfl, ?_⟩
            intro F hF hFne
            subst hF
            simp [details_container, hFne] at hc
            subst hc
            rfl

theorem process_note_snd (src : Source) (senv : StoreEnv) (now : ℚ)
    (indexMap : List (String × (ℚ × ℤ))) (folderName : Option String)
    (rows : List Row) (n : String) :
    (process_note src senv now indexMap folderName rows n).2
      = note_contributes src senv indexMap folderName n := by
  unfold process_note note_contributes
  cases h1 : get_note_id src n with
  | error e => rfl
  | ok nid =>
    cases h2 : get_note_modification_timestamp src n with
    | error e => rfl
    | ok mts =>
      by_cases h3 : needs_reindex (mapGet indexMap nid) mts = true
      · simp only [h3, if_true]
        cases h4 : get_note_details src n folderName with
        | error e => rfl
        | ok d =>
          by_cases h5 : senv.addFails d.note_id = true
          · simp [upsert_note, h5]
          · simp [upsert_note, h5]
      · simp [h3]

theorem index_loop_snd (src : Source) (senv : StoreEnv) (clk : ℕ → ℚ)
    (indexMap : List (String × (ℚ × ℤ))) (folderName : Option String) :
    ∀ (notes : List String) (i : ℕ) (rows : List Row) (acc : ℕ),
      (index_loop src senv clk indexMap folderName notes i rows acc).2
        = acc + (notes.filter (note_contributes src senv indexMap folderName)).length := by
  intro notes
  induction notes with
  | nil => intro i rows acc; simp [index_loop]
  | cons n rest ih =>
    intro i rows acc
    simp only [index_loop]
    rw [ih, process_note_snd]
    by_cases h : note_contributes src senv indexMap folderName n = true
    · simp [h, List.filter]
      omega
    · simp [h, List.filter]

/-- Running the loop over good notes makes (and keeps) every processed
note's id fresh in the folder-scoped index map of the resulting rows. -/
theorem index_loop_fresh (src : Source) (senv : StoreEnv) (clk : ℕ → ℚ)
    (indexMap : List (String × (ℚ × ℤ))) (F : String) :
    ∀ (notes : List String) (i : ℕ) (rows : List Row) (acc : ℕ),
      (∀ n ∈ notes, GoodNote src senv indexMap F n) →
      (∀ k, FreshKey clk (get_index_map rows (some F)) k →
        FreshKey clk
          (get_index_map
            (index_loop src senv clk indexMap (some F) notes i rows acc).1
            (some F)) k) ∧
      (∀ n ∈ notes, ∀ nid, get_note_id src n = .ok nid →
        FreshKey clk
          (get_index_map
            (index_loop src senv clk indexMap (some F) notes i rows acc).1
            (some F)) nid) := by
  intro notes
  induction notes with
  | nil =>
    intro i rows acc _
    exact ⟨fun k hk => hk, fun n hn => absurd hn (by simp)⟩
  | cons n rest ih =>
    intro i rows acc h
    obtain ⟨nid, h1, hne, hadd, ⟨mts, h2, h3⟩, ⟨d, h4⟩⟩ := h n (by simp)
    obtain ⟨hdid, _, hdfold⟩ := get_note_details_fields h4
    have hdnid : d.note_id = nid := by
      rw [h1] at hdid
      exact (Except.ok.inj hdid).symm
    have hstep : process_note src senv (clk i) indexMap (some F) rows n
        = upsert_note senv (clk i) rows d := by
      unfold process_note
      simp [h1, h2, h3, h4]
    have hpass : folder_pass (some F) (upserted_row (clk i) d) = true :=
      folder_pass_upserted (clk i) d F (fun hF => hdfold F rfl hF)
    have hups : ∀ k, mapGet (get_index_map (upsert_note senv (clk i) rows d).1 (some F)) k
        = if k = d.note_id then some (clk i, INDEX_VERSION)
          else mapGet (get_index_map rows (some F)) k := by
      intro k
      exact mapGet_gim_upsert senv (clk i) rows d (some F) k
        (by rw [hdnid]; exact hadd) (by rw [hdnid]; exact hne) hpass
    have hfresh_after : ∀ k, FreshKey clk (get_index_map rows (some F)) k ∨ k = d.note_id →
        FreshKey clk (get_index_map (upsert_note senv (clk i) rows d).1 (some F)) k := by
      intro k hk
      by_cases hkd : k = d.note_id
      · exact ⟨i, by rw [hups k, if_pos hkd]⟩
      · cases hk with
        | inl hfr =>
          obtain ⟨j, hj⟩ := hfr
          exact ⟨j, by rw [hups k, if_neg hkd]; exact hj⟩
        | inr hEq => exact absurd hEq hkd
    have hrest := ih (i + 1) (upsert_note senv (clk i) rows d).1
      (acc + (if (upsert_note senv (clk i) rows d).2 then 1 else 0))
      (fun m hm => h m (by simp [hm]))
    have hloop : index_loop src senv clk indexMap (some F) (n :: rest) i rows acc
        = index_loop src senv clk indexMap (some F) rest (i + 1)
            (upsert_note senv (clk i) rows d).1
            (acc + (if (upsert_note senv (clk i) rows d).2 then 1 else 0)) := by
      simp only [index_loop, hstep]
    constructor
    · intro k hk
      rw [hloop]
      exact hrest.1 k (hfresh_after k (Or.inl hk))
    · intro m hm nidm hidm
      rw [hloop]
      rcases List.mem_cons.mp hm with hmn | hmr
      · subst hmn
        have heq : nidm = nid := by
          rw [h1] at hidm
          exact (Except.ok.inj hidm).symm
        rw [heq]
        exact hrest.1 nid (hfresh_after nid (Or.inr hdnid.symm))
      · exact hrest.2 m hmr nidm hidm

theorem index_loop_skip (src : Source) (senv : StoreEnv) (clk : ℕ → ℚ)
    (indexMap : List (String × (ℚ × ℤ))) (folderName : Option String) :
    ∀ (notes : List String) (i : ℕ) (rows : List Row) (acc : ℕ),
      (∀ n ∈ notes, ∃ nid mts, get_note_id src n = .ok nid ∧
          get_note_modification_timestamp src n = .ok mts ∧
          needs_reindex (mapGet indexMap nid) mts = false) →
      index_loop src senv clk indexMap folderName notes i rows acc = (rows, acc) := by
  intro notes
  induction notes with
  | nil => intro i rows acc _; rfl
  | cons n rest ih =>
    intro i rows acc h
    obtain ⟨nid, mts, h1, h2, h3⟩ := h n (by simp)
    have hstep : process_note src senv (clk i) indexMap folderName rows n
        = (rows, false) := by
      unfold process_note
      simp [h1, h2, h3]
    simp only [index_loop, hstep]
    simpa using ih (i + 1) rows acc (fun m hm => h m (by simp [hm]))

/-! ### Support lemmas for the remaining claims -/

theorem needs_reindex_false_of (t : ℚ) (v : ℤ) (mts : ℚ)
    (hv : INDEX_VERSION ≤ v) (hts : mts ≤ t) :
    needs_reindex (some (t, v)) mts = false := by
  simp [needs_reindex]
  exact ⟨hv, hts⟩

theorem rows_with_id_filter_not (rows : List Row) (nid : String) :
    rows_with_id (rows.filter (fun r => !(r.note_id == some nid))) nid = [] := by
  induction rows with
  | nil => rfl
  | cons r rest ih =>
    by_cases hr : r.note_id == some nid <;>
      simp only [rows_with_id, List.filter] at ih ⊢ <;> simp [hr, ih]

theorem rows_with_id_append (a b : List Row) (nid : String) :
    rows_with_id (a ++ b) nid = rows_with_id a nid ++ rows_with_id b nid := by
  simp [rows_with_id, List.filter_append]

theorem rows_with_id_upserted (now : ℚ) (d : NoteDetails) :
    rows_with_id [upserted_row now d] d.note_id = [upserted_row now d] := by
  simp [rows_with_id, upserted_row]

theorem mem_insertRanked (key : Row → ℚ) (r : Row) :
    ∀ (l : List Row) (a : Row), a ∈ insertRanked key r l → a = r ∨ a ∈ l := by
  intro l
  induction l with
  | nil =>
    intro a h
    simp [insertRanked] at h
    exact Or.inl h
  | cons x xs ih =>
    intro a h
    unfold insertRanked at h
    by_cases hc : key r ≤ key x
    · rw [if_pos hc] at h
      rcases List.mem_cons.mp h with h1 | h1
      · exact Or.inl h1
      · exact Or.inr h1
    · rw [if_neg hc] at h
      rcases List.mem_cons.mp h with h1 | h1
      · exact Or.inr (by simp [h1])
      · rcases ih a h1 with h2 | h2
        · exact Or.inl h2
        · exact Or.inr (by simp [h2])

theorem mem_rank_rows (env : SearchEnv) (q : String) :
    ∀ (rows : List Row) (a : Row), a ∈ rank_rows env q rows → a ∈ rows := by
  intro rows
  induction rows with
  | nil =>
    intro a h
    simp [rank_rows] at h
  | cons x xs ih =>
    intro a h
    unfold rank_rows at h
    simp only [List.foldr] at h
    rcases mem_insertRanked (env.distance q) x _ a h with h1 | h1
    · simp [h1]
    · exact List.mem_cons.mpr (Or.inr (ih a h1))

theorem row_passes_folder_filter_eq (A : String) (r : Row) :
    row_passes_folder_filter (mkEqFilter "folder" A) r = (r.folder == some A) := by
  unfold row_passes_folder_filter
  rw [parseEq_mkEqFilter]

/-! ### Claim theorems -/

/-- C1: for every note processed by `index_folder`/`reindex_updated_notes`
(both loops run `process_note` on the fixed index map), once the id and
modification-timestamp fetches succeed, the freshness policy judges the note
stale iff no prior record exists, or the stored `index_version` is strictly
below `INDEX_VERSION`, or `modified_ts` strictly exceeds the stored
`indexed_at`; in particular a note with a current-version record and
`modified_ts ≤ indexed_at` is never reindexed (the loop body leaves the
table untouched and counts nothing). -/
theorem C1_freshness_policy (src : Source) (senv : StoreEnv) (now : ℚ)
    (indexMap : List (String × (ℚ × ℤ))) (folderName : Option String)
    (rows : List Row) (n nid : String) (mts : ℚ)
    (hid : get_note_id src n = .ok nid)
    (hmod : get_note_modification_timestamp src n = .ok mts) :
    (mapGet indexMap nid = none → needs_reindex (mapGet indexMap nid) mts = true) ∧
    (∀ t v, mapGet indexMap nid = some (t, v) →
      (needs_reindex (mapGet indexMap nid) mts = true ↔
        (v < INDEX_VERSION ∨ mts > t))) ∧
    (∀ t v, mapGet indexMap nid = some (t, v) → v = INDEX_VERSION → mts ≤ t →
      process_note src senv now indexMap folderName rows n = (rows, false)) := by
  refine ⟨?_, ?_, ?_⟩
  · intro h
    rw [h]
    rfl
  · intro t v h
    rw [h]
    simp [needs_reindex]
  · intro t v h hv hle
    have hfalse : needs_reindex (mapGet indexMap nid) mts = false := by
      rw [h]
      exact needs_reindex_false_of t v mts (le_of_eq hv.symm) hle
    unfold process_note
    simp [hid, hmod, hfalse]

/-- Witness for C1 at a concrete source, store and map. -/
theorem C1_freshness_policy_witness :
    get_note_id srcOneNote "n1" = .ok "a" ∧
    get_note_modification_timestamp srcOneNote "n1" = .ok 5 ∧
    mapGet [("a", ((10 : ℚ), (1 : ℤ)))] "a" = some (10, 1) ∧
    process_note srcOneNote senvOk 100 [("a", ((10 : ℚ), (1 : ℤ)))] (some "F")
      [] "n1" = ([], false) := by
  refine ⟨rfl, rfl, rfl, ?_⟩
  exact (C1_freshness_policy srcOneNote senvOk 100 [("a", (10, 1))] (some "F")
    [] "n1" "a" 5 rfl rfl).2.2 10 1 rfl rfl (by norm_num)

/-- C2 (amended): a successful upsert always appends the recomputed row —
`content = trim(name + "\n\n" + body)`, `index_version = INDEX_VERSION`,
`indexed_at = now` — and never propagates a delete failure; exactly one row
with the upserted `note_id` remains whenever the delete step succeeds, or
when no prior row with that id existed; but when the delete step fails while
prior rows exist, those prior rows survive alongside the new one. -/
theorem C2_upsert_note (senv : StoreEnv) (now : ℚ) (rows : List Row)
    (d : NoteDetails) (hadd : senv.addFails d.note_id = false) :
    (upsert_note senv now rows d).2 = true ∧
    (upsert_note senv now rows d).1.getLast? = some (upserted_row now d) ∧
    (upserted_row now d).content = (d.name ++ "\n\n" ++ d.body).trim ∧
    (upserted_row now d).index_version = PyVal.vNum (INDEX_VERSION : ℚ) ∧
    (upserted_row now d).indexed_at = PyVal.vNum now ∧
    (senv.deleteFails d.note_id = false →
      (rows_with_id (upsert_note senv now rows d).1 d.note_id).length = 1) ∧
    (rows_with_id rows d.note_id = [] →
      (rows_with_id (upsert_note senv now rows d).1 d.note_id).length = 1) ∧
    (senv.deleteFails d.note_id = true →
      (upsert_note senv now rows d).1 = rows ++ [upserted_row now d]) := by
  refine ⟨by simp [upsert_note, hadd], ?_, rfl, rfl, rfl, ?_, ?_, ?_⟩
  · by_cases hdel : senv.deleteFails d.note_id <;>
      simp [upsert_note, hadd, hdel, table_delete_mkEqFilter, List.getLast?_concat]
  · intro hdel
    have hshape : (upsert_note senv now rows d).1
        = rows.filter (fun r => !(r.note_id == some d.note_id)) ++ [upserted_row now d] := by
      simp [upsert_note, hadd, hdel, table_delete_mkEqFilter]
    rw [hshape, rows_with_id_append, rows_with_id_filter_not, rows_with_id_upserted]
    rfl
  · intro hprior
    by_cases hdel : senv.deleteFails d.note_id
    · have hshape : (upsert_note senv now rows d).1 = rows ++ [upserted_row now d] := by
        simp [upsert_note, hadd, hdel]
      rw [hshape, rows_with_id_append, hprior, rows_with_id_upserted]
      rfl
    · have hshape : (upsert_note senv now rows d).1
          = rows.filter (fun r => !(r.note_id == some d.note_id)) ++ [upserted_row now d] := by
        simp [upsert_note, hadd, hdel, table_delete_mkEqFilter]
      rw [hshape, rows_with_id_append, rows_with_id_filter_not, rows_with_id_upserted]
      rfl
  · intro hdel
    simp [upsert_note, hadd, hdel]

/-- Witness for C2 (amended) at a concrete upsert. -/
theorem C2_upsert_note_witness :
    senvOk.addFails "a" = false ∧
    (upsert_note senvOk 7 [rowA] detailsA).2 = true ∧
    (rows_with_id (upsert_note senvOk 7 [rowA] detailsA).1 "a").length = 1 := by
  refine ⟨rfl, ?_, ?_⟩
  · exact (C2_upsert_note senvOk 7 [rowA] detailsA rfl).1
  · exact (C2_upsert_note senvOk 7 [rowA] detailsA rfl).2.2.2.2.2.1 rfl

/-- Counterexample to C2 as stated: with a prior row for `note_id = "a"` and
a store whose delete step fails (the failure being swallowed as the code
does), the upsert leaves two rows with that `note_id`, not exactly one. -/
theorem C2_counterexample :
    (rows_with_id (upsert_note senvDeleteFails 7 [rowA] detailsA).1 "a").length = 2 := by
  decide

/-- C4: store-handle acquisition opens the table unchanged when it exists
with the `index_version` column, and otherwise (absent table, or table
lacking the column) produces a freshly created table — present, with the
current schema, and empty (all prior rows gone).  The acquisition is
idempotent. -/
theorem C4_get_table (db : DB) :
    get_table db = (if db.tableExists && db.hasIndexVersionCol then db else freshTable) ∧
    freshTable.rows = [] ∧
    freshTable.tableExists = true ∧
    freshTable.hasIndexVersionCol = true ∧
    get_table (get_table db) = get_table db := by
  by_cases h1 : db.tableExists <;> by_cases h2 : db.hasIndexVersionCol <;>
    simp [get_table, freshTable, h1, h2]

/-- C7: when the modification-timestamp output is unparsable, the fetch
returns `0.0` instead of raising; with `modified_ts = 0`, a note is judged
stale iff it has no prior record or its stored version is below
`INDEX_VERSION` — never on the timestamp ground (for the timestamps
`0 ≤ indexed_at` the system itself writes). -/
theorem C7_unparsable_timestamp (src : Source) (n : String)
    (hbad : src.modOutput n = .ok none) :
    get_note_modification_timestamp src n = .ok 0 ∧
    needs_reindex none 0 = true ∧
    (∀ t v, 0 ≤ t → (needs_reindex (some (t, v)) 0 = true ↔ v < INDEX_VERSION)) := by
  refine ⟨?_, rfl, ?_⟩
  · unfold get_note_modification_timestamp
    rw [hbad]
  · intro t v ht
    simp [needs_reindex]
    intro hlt
    exact absurd ht (not_le.mpr hlt)

/-- Witness for C7 at a concrete source with an unparsable timestamp. -/
theorem C7_unparsable_timestamp_witness :
    srcUnparsable.modOutput "n1" = .ok none ∧
    get_note_modification_timestamp srcUnparsable "n1" = .ok 0 ∧
    (needs_reindex (some ((10 : ℚ), (1 : ℤ))) 0 = true ↔ (1 : ℤ) < INDEX_VERSION) := by
  refine ⟨rfl, ?_, ?_⟩
  · exact (C7_unparsable_timestamp srcUnparsable "n1" rfl).1
  · exact (C7_unparsable_timestamp srcUnparsable "n1" rfl).2.2 10 1 (by norm_num)

/-- C9: when the folder enumeration is empty, `index_folder` returns 0 and
the store state is exactly the input state: the table is not opened, created
or migrated. -/
theorem C9_empty_folder (src : Source) (senv : StoreEnv) (clk : ℕ → ℚ)
    (db : DB) (F : String) (h : src.notesInFolder F = []) :
    index_folder src senv clk db F = (0, db) := by
  simp [index_folder, h]

/-- Witness for C9: an empty folder on a concrete source and an unmigrated
store. -/
theorem C9_empty_folder_witness :
    srcThreeNotes.notesInFolder "G" = [] ∧
    index_folder srcThreeNotes senvOk (fun _ => 0) dbEmpty "G" = (0, dbEmpty) := by
  refine ⟨rfl, ?_⟩
  exact C9_empty_folder srcThreeNotes senvOk (fun _ => 0) dbEmpty "G" rfl

/-- C10 (amended): decoding a stored row never raises; a row with a missing
or empty `note_id` is excluded from the index map; a row on which either
numeric conversion raises maps to `(0.0, 0)`; a missing/None `indexed_at`
defaults to `0.0` and a missing/None `index_version` defaults to `0`
independently of each other; and any entry whose decoded version is `0` is
always judged stale (since `0 < INDEX_VERSION`). -/
theorem C10_index_map_decode :
    (∀ row : Row, (row.note_id = none ∨ row.note_id = some "") → decode_row row = none) ∧
    (∀ (row : Row) (nid : String), row.note_id = some nid → nid ≠ "" →
      (pyFloatOrZero row.indexed_at = none ∨ pyIntOrZero row.index_version = none) →
      decode_row row = some (nid, (0, 0))) ∧
    (∀ (row : Row) (nid : String) (ts : ℚ) (v : ℤ), row.note_id = some nid → nid ≠ "" →
      pyFloatOrZero row.indexed_at = some ts → pyIntOrZero row.index_version = some v →
      decode_row row = some (nid, (ts, v))) ∧
    pyFloatOrZero PyVal.vNone = some 0 ∧
    pyIntOrZero PyVal.vNone = some 0 ∧
    (∀ (t : ℚ) (mts : ℚ), needs_reindex (some (t, 0)) mts = true) := by
  refine ⟨?_, ?_, ?_, rfl, rfl, ?_⟩
  · intro row h
    rcases h with h | h <;> simp [decode_row, h]
  · intro row nid hn hne hbad
    rcases hbad with hb | hb
    · cases hv : pyIntOrZero row.index_version <;> simp [decode_row, hn, hne, hb, hv]
    · cases hf : pyFloatOrZero row.indexed_at <;> simp [decode_row, hn, hne, hb, hf]
  · intro row nid ts v hn hne hf hv
    simp [decode_row, hn, hne, hf, hv]
  · intro t mts
    simp [needs_reindex, INDEX_VERSION]

/-- Witness for C10 (amended) at concrete rows. -/
theorem C10_index_map_decode_witness :
    decode_row rowNoId = none ∧
    decode_row rowBadTs = some ("b", (0, 0)) ∧
    needs_reindex (some ((3 : ℚ), (0 : ℤ))) 99 = true := by
  refine ⟨?_, ?_, ?_⟩
  · exact C10_index_map_decode.1 rowNoId (Or.inl rfl)
  · exact C10_index_map_decode.2.1 rowBadTs "b" rfl (by decide) (Or.inl rfl)
  · exact C10_index_map_decode.2.2.2.2.2 3 99

/-- Counterexample to C10 as stated: a row with a *missing* `indexed_at` but
a valid `index_version = 5` decodes to `(0.0, 5)` — not `(0.0, 0)` — and,
its version being ≥ `INDEX_VERSION`, it is not judged stale when
`modified_ts = 0`. -/
theorem C10_counterexample :
    mapGet (get_index_map [rowHalfDecoded] none) "a" = some (0, 5) ∧
    mapGet (get_index_map [rowHalfDecoded] none) "a" ≠ some (0, 0) ∧
    needs_reindex (some ((0 : ℚ), (5 : ℤ))) 0 = false := by
  refine ⟨by decide, by decide, by decide⟩

/-- C3: per-note failures are isolated in both batch calls — the loop never
raises (it is a total function) and the count returned by `index_folder` and
by `reindex_updated_notes` is exactly the number of notes actually upserted,
i.e. those for which every fetch succeeded, the freshness policy held, and
the store add succeeded; in particular, on a 3-note folder where fetching
the details of the 2nd note throws and the 1st and 3rd are stale,
`index_folder` returns 2. -/
theorem C3_fault_isolation :
    (∀ (src : Source) (senv : StoreEnv) (clk : ℕ → ℚ) (db : DB) (F : String),
      (index_folder src senv clk db F).1
        = ((src.notesInFolder F).filter
            (note_contributes src senv
              (get_index_map (get_table db).rows (some F)) (some F))).length) ∧
    (∀ (src : Source) (senv : StoreEnv) (clk : ℕ → ℚ) (db : DB)
        (folderName : Option String),
      (reindex_updated_notes src senv clk db folderName).1
        = ((reindex_candidates src folderName).filter
            (note_contributes src senv
              (get_index_map (get_table db).rows folderName) folderName)).length) ∧
    (index_folder srcThreeNotes senvOk (fun _ => 100) dbEmpty "F").1 = 2 := by
  refine ⟨?_, ?_, ?_⟩
  · intro src senv clk db F
    by_cases hnil : src.notesInFolder F = []
    · simp [index_folder, hnil]
    · have h := index_loop_snd src senv clk
        (get_index_map (get_table db).rows (some F)) (some F)
        (src.notesInFolder F) 0 (get_table db).rows 0
      simp [index_folder, hnil, h]
  · intro src senv clk db folderName
    have h := index_loop_snd src senv clk
      (get_index_map (get_table db).rows folderName) folderName
      (reindex_candidates src folderName) 0 (get_table db).rows 0
    simp [reindex_updated_notes, h]
  · decide

/-- C6 (amended): for a non-empty folder name `A` — including names with
single quotes, escaped by doubling — `search` never returns a result whose
stored folder differs from `A`; for the empty folder name the Python
truthiness test skips the filter entirely (see the counterexample). -/
theorem C6_folder_scope (env : SearchEnv) (db : DB) (q : String) (lim : ℕ)
    (A : String) (r : VectorSearchResult) (hA : A ≠ "")
    (hr : r ∈ (search env db q lim (some A)).1) :
    r.folder = A := by
  unfold search at hr
  obtain ⟨h, hh, hproj⟩ := List.mem_map.mp hr
  have hfilt : search_filter (some A) = some (mkEqFilter "folder" A) := by
    simp [search_filter, hA]
  rw [hfilt] at hh
  unfold store_search at hh
  obtain ⟨row, hrow, hpair⟩ := List.mem_map.mp hh
  have hrow2 : row ∈ rank_rows env q
      ((get_table db).rows.filter (row_passes_folder_filter (mkEqFilter "folder" A))) :=
    List.take_subset _ _ hrow
  have hrow3 := mem_rank_rows env q _ row hrow2
  have hpass : row_passes_folder_filter (mkEqFilter "folder" A) row = true :=
    (List.mem_filter.mp hrow3).2
  rw [row_passes_folder_filter_eq] at hpass
  have hfold : row.folder = some A := by simpa using hpass
  rw [← hproj, ← hpair]
  simp [hfold]

/-- Witness for C6 (amended): a folder name containing a single quote. -/
theorem C6_folder_scope_witness :
    ({ name := "nQ", folder := "a'b", note_id := "x", distance := 0 } : VectorSearchResult)
      ∈ (search envConst dbQuote "q" 5 (some "a'b")).1 ∧
    ({ name := "nQ", folder := "a'b", note_id := "x", distance := 0 } : VectorSearchResult).folder
      = "a'b" := by
  constructor
  · decide
  · exact C6_folder_scope envConst dbQuote "q" 5 "a'b" _ (by decide) (by decide)

/-- Counterexample to C6 as stated: with `A = ""` (falsy in Python) the
filter is skipped and `search` returns a result whose stored folder is
`"B" ≠ ""`. -/
theorem C6_counterexample :
    (search envConst dbLeak "q" 5 (some "")).1
      = [{ name := "nB", folder := "B", note_id := "idB", distance := 0 }] ∧
    ("B" : String) ≠ "" := by
  refine ⟨by decide, by decide⟩

/-- C8: `search` returns at most `limit` results; each result is exactly the
four-field projection `{name, folder, note_id, distance}` of the store's
hits in the store's ranking order (an order-preserving map, no re-sorting),
with missing stored strings defaulting to `""` and a missing `_distance`
defaulting to `0.0`. -/
theorem C8_search_shape (env : SearchEnv) (db : DB) (q : String) (lim : ℕ)
    (folderName : Option String) :
    (search env db q lim folderName).1.length ≤ lim ∧
    (search env db q lim folderName).1
      = (store_search env (get_table db).rows q (search_filter folderName) lim).map
          (fun h =>
            { name := h.1.name.getD "", folder := h.1.folder.getD "",
              note_id := h.1.note_id.getD "", distance := h.2.getD 0 }) := by
  constructor
  · simp only [search, store_search, List.length_map, List.length_take]
    exact min_le_left _ _
  · rfl

/-- C5: on a folder of stale notes with well-behaved fetches (ids resolve
and are non-empty, details resolve, adds succeed) and modification
timestamps in the past (not after any wall-clock instant of the first call),
`index_folder` returns the number of notes on the first call and `0` on an
immediately repeated call with the source unchanged. -/
theorem C5_index_folder_idempotent
    (src : Source) (senv : StoreEnv) (clk1 clk2 : ℕ → ℚ) (db : DB) (F : String)
    (idF : String → String) (mtsF : String → ℚ) (dF : String → NoteDetails)
    (hne : src.notesInFolder F ≠ [])
    (hid : ∀ n ∈ src.notesInFolder F, get_note_id src n = .ok (idF n))
    (hid0 : ∀ n ∈ src.notesInFolder F, idF n ≠ "")
    (hmod : ∀ n ∈ src.notesInFolder F,
      get_note_modification_timestamp src n = .ok (mtsF n))
    (hdet : ∀ n ∈ src.notesInFolder F, get_note_details src n (some F) = .ok (dF n))
    (hstale : ∀ n ∈ src.notesInFolder F,
      needs_reindex
        (mapGet (get_index_map (get_table db).rows (some F)) (idF n)) (mtsF n) = true)
    (hadd : ∀ n ∈ src.notesInFolder F, senv.addFails (idF n) = false)
    (hpast : ∀ n ∈ src.notesInFolder F, ∀ i, mtsF n ≤ clk1 i) :
    (index_folder src senv clk1 db F).1 = (src.notesInFolder F).length ∧
    (index_folder src senv clk2 (index_folder src senv clk1 db F).2 F).1 = 0 := by
  have hGood : ∀ n ∈ src.notesInFolder F,
      GoodNote src senv (get_index_map (get_table db).rows (some F)) F n := by
    intro n hn
    exact ⟨idF n, hid n hn, hid0 n hn, hadd n hn,
      ⟨mtsF n, hmod n hn, hstale n hn⟩, ⟨dF n, hdet n hn⟩⟩
  have hcontrib : ∀ n ∈ src.notesInFolder F,
      note_contributes src senv
        (get_index_map (get_table db).rows (some F)) (some F) n = true := by
    intro n hn
    obtain ⟨hdid, _, _⟩ := get_note_details_fields (hdet n hn)
    have hdnid : (dF n).note_id = idF n := by
      rw [hid n hn] at hdid
      exact (Except.ok.inj hdid).symm
    unfold note_contributes
    simp [hid n hn, hmod n hn, hstale n hn, hdet n hn, hdnid, hadd n hn]
  have hcount : (index_folder src senv clk1 db F).1
      = ((src.notesInFolder F).filter
          (note_contributes src senv
            (get_index_map (get_table db).rows (some F)) (some F))).length := by
    have h := index_loop_snd src senv clk1
      (get_index_map (get_table db).rows (some F)) (some F)
      (src.notesInFolder F) 0 (get_table db).rows 0
    simp [index_folder, hne, h]
  have hfilter : (src.notesInFolder F).filter
      (note_contributes src senv
        (get_index_map (get_table db).rows (some F)) (some F))
      = src.notesInFolder F := List.filter_eq_self.mpr hcontrib
  have hdb1 : (index_folder src senv clk1 db F).2
      = { get_table db with
          rows := (index_loop src senv clk1
            (get_index_map (get_table db).rows (some F)) (some F)
            (src.notesInFolder F) 0 (get_table db).rows 0).1 } := by
    simp [index_folder, hne]
  have hflags := get_table_flags db
  have hfreshAll := (index_loop_fresh src senv clk1
    (get_index_map (get_table db).rows (some F)) F
    (src.notesInFolder F) 0 (get_table db).rows 0 hGood).2
  have hskip : ∀ n ∈ src.notesInFolder F, ∃ nid mts,
      get_note_id src n = .ok nid ∧
      get_note_modification_timestamp src n = .ok mts ∧
      needs_reindex
        (mapGet (get_index_map (index_loop src senv clk1
          (get_index_map (get_table db).rows (some F)) (some F)
          (src.notesInFolder F) 0 (get_table db).rows 0).1 (some F)) nid) mts
        = false := by
    intro n hn
    refine ⟨idF n, mtsF n, hid n hn, hmod n hn, ?_⟩
    obtain ⟨j, hj⟩ := hfreshAll n hn (idF n) (hid n hn)
    rw [hj]
    exact needs_reindex_false_of (clk1 j) INDEX_VERSION (mtsF n)
      (le_refl _) (hpast n hn j)
  have hloop2 := index_loop_skip src senv clk2
    (get_index_map (index_loop src senv clk1
      (get_index_map (get_table db).rows (some F)) (some F)
      (src.notesInFolder F) 0 (get_table db).rows 0).1 (some F)) (some F)
    (src.notesInFolder F) 0
    (index_loop src senv clk1
      (get_index_map (get_table db).rows (some F)) (some F)
      (src.notesInFolder F) 0 (get_table db).rows 0).1 0 hskip
  have hgt : get_table { get_table db with
      rows := (index_loop src senv clk1
        (get_index_map (get_table db).rows (some F)) (some F)
        (src.notesInFolder F) 0 (get_table db).rows 0).1 }
      = { get_table db with
          rows := (index_loop src senv clk1
            (get_index_map (get_table db).rows (some F)) (some F)
            (src.notesInFolder F) 0 (get_table db).rows 0).1 } :=
    get_table_of_flags (by simpa using hflags.1) (by simpa using hflags.2)
  constructor
  · rw [hcount, hfilter]
  · rw [hdb1]
    simp [index_folder, hne, hgt, hloop2]

/-- Witness for C5 at a concrete one-note folder. -/
theorem C5_index_folder_idempotent_witness :
    srcOneNote.notesInFolder "F" ≠ [] ∧
    (index_folder srcOneNote senvOk (fun _ => 100) dbEmpty "F").1 = 1 ∧
    (index_folder srcOneNote senvOk (fun _ => 200)
      (index_folder srcOneNote senvOk (fun _ => 100) dbEmpty "F").2 "F").1 = 0 := by
  have h := C5_index_folder_idempotent srcOneNote senvOk (fun _ => 100) (fun _ => 200)
    dbEmpty "F" (fun _ => "a") (fun _ => 5)
    (fun _ => { note_id := "a", name := "n1", folder := "F", body := "b", created_ts := 1, modified_ts := 5 })
    (by decide)
    (by intro n hn; simp [srcOneNote] at hn; subst hn; rfl)
    (by decide)
    (by intro n hn; simp [srcOneNote] at hn; subst hn; rfl)
    (by intro n hn; simp [srcOneNote] at hn; subst hn; rfl)
    (by decide) (by decide)
    (by intro n hn i; norm_num)
  refine ⟨by decide, ?_, h.2⟩
  rw [h.1]
  decide

end AppleNotes

